import Mathlib

set_option maxRecDepth 8000

/-!
Verification of the Tock alarm multiplexing driver
(`src/capsules/src/alarm.rs`), against its natural-language specification.

Tick values of a hardware counter of width `w` are natural numbers below
`2 ^ w`; the wrapping arithmetic of the Rust `Ticks` types is explicit
modular arithmetic.  The per-process grant store is a list of `AlarmData`
records indexed by process identity; entering the grant of an identity
with no live record fails.
-/

/-- Modelled from the spec: `Ticks::wrapping_add` at counter width `w`
(the `Ticks` trait of `kernel/src/hil/time.rs` is not among the sources;
the spec describes its arithmetic as modulo `2 ^ w`). -/
def wrapAdd (w a b : Nat) : Nat := (a + b) % 2 ^ w

/-- Modelled from the spec: `Ticks::wrapping_sub` at counter width `w`. -/
def wrapSub (w a b : Nat) : Nat := (a % 2 ^ w + 2 ^ w - b % 2 ^ w) % 2 ^ w

/-- Modelled from the spec: `Ticks::from` of a narrower value at width `w`
(truncation to `w` bits). -/
def tickFrom (w x : Nat) : Nat := x % 2 ^ w

/-- Modelled from the spec: `Ticks::into_u32` (the low 32 bits). -/
def intoU32 (x : Nat) : Nat := x % 2 ^ 32

/-- Modelled from the spec: circular interval containment
`x.within_range(s, e)`, true iff `x` lies in the half-open wrap-around
interval `[s, e)` at width `w`. -/
def within_range (w x s e : Nat) : Bool := wrapSub w x s < wrapSub w e s

/-- `Expiration` from `alarm.rs`. -/
inductive Expiration where
  | Disabled : Expiration
  | Enabled (reference : Nat) (dt : Nat) : Expiration
deriving DecidableEq, Repr

/-- `AlarmData` from `alarm.rs`.  The callback (`Upcall`) is an abstract
identifier; the ROS region is an optional byte buffer. -/
structure AlarmData where
  expiration : Expiration
  callback : Nat
  ros_region : Option (List Nat)
  ros_count : Nat
deriving DecidableEq, Repr

/-- The state owned by `AlarmDriver`: `num_armed`, the cached `next_alarm`
selection, the grant region (one record per live process, indexed by
process identity), and the `ros_enabled` flag. -/
structure AlarmDriverState where
  num_armed : Nat
  next_alarm : Expiration
  clients : List AlarmData
  ros_enabled : Bool
deriving DecidableEq, Repr

/-- The error codes the driver returns.  `ALREADY` and `NOSUPPORT` appear
in `alarm.rs`; `INVALID_PROCESS` is modelled from the spec as the failure
derived from a grant-entry error on an invalid process identity. -/
inductive ErrorCode where
  | ALREADY : ErrorCode
  | NOSUPPORT : ErrorCode
  | INVALID_PROCESS : ErrorCode
deriving DecidableEq, Repr

/-- `CommandReturn` outcomes used by `alarm.rs`. -/
inductive CommandReturn where
  | success : CommandReturn
  | success_u32 (v : Nat) : CommandReturn
  | failure (e : ErrorCode) : CommandReturn
deriving DecidableEq, Repr

/-- The hardware-facing effect of an engine operation. -/
inductive HwAction where
  | set_alarm (reference : Nat) (dt : Nat) : HwAction
  | disarm : HwAction
deriving DecidableEq, Repr

/-- One step of the earliest-candidate scan of `reset_active_alarm`
(`alarm.rs` lines 85-141).  The accumulator carries `earliest_alarm` and
`earliest_end`; `earliest_end` is written exactly as the source writes it
(including the rule-3 branch, which stores the old candidate's end) but is
never read after the scan. -/
def resetStep (w nowLowerBits : Nat) (acc : Expiration × Nat) (d : AlarmData) :
    Expiration × Nat :=
  match d.expiration with
  | Expiration.Disabled => acc
  | Expiration.Enabled reference dt =>
    let currentEnd := wrapAdd w (tickFrom w reference) (tickFrom w dt)
    match acc.1 with
    | Expiration.Disabled => (d.expiration, currentEnd)
    | Expiration.Enabled eref edt =>
      let tempRef := tickFrom w eref
      let tempEnd := wrapAdd w tempRef (tickFrom w edt)
      if within_range w currentEnd tempRef tempEnd then
        (d.expiration, currentEnd)
      else if ! within_range w nowLowerBits tempRef tempEnd then
        (d.expiration, tempEnd)
      else
        acc

/-- The full earliest-candidate scan over all grant records. -/
def selectEarliest (w nowLowerBits : Nat) (clients : List AlarmData) :
    Expiration × Nat :=
  clients.foldl (resetStep w nowLowerBits) (Expiration.Disabled, 0)

/-- The width-extension step of `reset_active_alarm` (`alarm.rs` lines
147-161): reconstruct the full-width reference from the candidate's
32-bit `reference` and the full-width `now`. -/
def realReference (w now reference : Nat) : Nat :=
  let nowLowerBits := tickFrom w (intoU32 now)
  let highBits := wrapSub w now nowLowerBits
  let bit33 := wrapAdd w 0xffffffff 0x1
  let highBits' :=
    if intoU32 nowLowerBits < reference then wrapSub w highBits bit33 else highBits
  wrapAdd w highBits' (tickFrom w reference)

/-- `reset_active_alarm` (`alarm.rs` lines 73-164): select the candidate,
cache it in `next_alarm` (first component), and either disarm the hardware
or program `set_alarm(real_reference, dt)` (second component). -/
def reset_active_alarm (w now : Nat) (clients : List AlarmData) :
    Expiration × HwAction :=
  let nowLowerBits := tickFrom w (intoU32 now)
  match (selectEarliest w nowLowerBits clients).1 with
  | Expiration.Disabled => (Expiration.Disabled, HwAction.disarm)
  | Expiration.Enabled reference dt =>
    (Expiration.Enabled reference dt,
     HwAction.set_alarm (realReference w now reference) (tickFrom w dt))

/-- The `rearm` closure of `command` (`alarm.rs` lines 259-271).  The
`usize` arithmetic whose results the source truncates to `u32` is modelled
at width 32.  Returns the updated record, the updated `num_armed`, the
`CommandReturn`, and the reset flag. -/
def rearm (td : AlarmData) (numArmed reference dt : Nat) :
    AlarmData × Nat × CommandReturn × Bool :=
  let numArmed' :=
    match td.expiration with
    | Expiration.Disabled => numArmed + 1
    | Expiration.Enabled _ _ => numArmed
  ({ td with expiration := Expiration.Enabled (reference % 2 ^ 32) (dt % 2 ^ 32) },
   numArmed', CommandReturn.success_u32 ((reference + dt) % 2 ^ 32), true)

/-- The observable outcome of one `command` invocation: the new driver
state, the returned value, and the hardware action (`none` when
`reset_active_alarm` was not invoked). -/
structure CommandOutcome where
  state : AlarmDriverState
  ret : CommandReturn
  hw : Option HwAction
deriving DecidableEq, Repr

/-- `Driver::command` (`alarm.rs` lines 244-331).  `nowC` is the counter
value read at the top of `command`; `nowR` the one read inside
`reset_active_alarm` when a reset happens; `freq` the clock frequency. -/
def command (w : Nat) (s : AlarmDriverState) (nowC nowR : Nat)
    (cmdType data data2 caller freq : Nat) : CommandOutcome :=
  match s.clients.get? caller with
  | none => ⟨s, CommandReturn.failure ErrorCode.INVALID_PROCESS, none⟩
  | some td =>
    let nowLow := intoU32 nowC
    let step : AlarmData × Nat × CommandReturn × Bool :=
      match cmdType with
      | 0 => (td, s.num_armed, CommandReturn.success, false)
      | 1 => (td, s.num_armed, CommandReturn.success_u32 freq, false)
      | 2 => (td, s.num_armed, CommandReturn.success_u32 nowLow, false)
      | 3 =>
        match td.expiration with
        | Expiration.Disabled =>
          (td, s.num_armed, CommandReturn.failure ErrorCode.ALREADY, false)
        | Expiration.Enabled _ _ =>
          ({ td with expiration := Expiration.Disabled }, s.num_armed - 1,
           CommandReturn.success, true)
      | 4 => rearm td s.num_armed nowLow (wrapSub 32 data nowLow)
      | 5 => rearm td s.num_armed nowLow data
      | 6 => rearm td s.num_armed data data2
      | _ => (td, s.num_armed, CommandReturn.failure ErrorCode.NOSUPPORT, false)
    let clients' := s.clients.set caller step.1
    if step.2.2.2 then
      let ra := reset_active_alarm w nowR clients'
      ⟨⟨step.2.1, ra.1, clients', s.ros_enabled⟩, step.2.2.1, some ra.2⟩
    else
      ⟨⟨step.2.1, s.next_alarm, clients', s.ros_enabled⟩, step.2.2.1, none⟩

/-- One record of the expiration sweep of `AlarmClient::alarm` (`alarm.rs`
lines 337-354): a record whose interval no longer contains `now_low` is
disabled and its callback dispatched with `(now_low, reference + dt, 0)`;
the dispatched tuple is `(callback id, args...)`. -/
def sweepOne (nowLow : Nat) (d : AlarmData) :
    AlarmData × Option (Nat × Nat × Nat × Nat) :=
  match d.expiration with
  | Expiration.Disabled => (d, none)
  | Expiration.Enabled reference dt =>
    if ! within_range 32 nowLow (tickFrom 32 reference) (wrapAdd 32 reference dt) then
      ({ d with expiration := Expiration.Disabled },
       some (d.callback, nowLow, wrapAdd 32 reference dt, 0))
    else
      (d, none)

/-- `AlarmClient::alarm` (`alarm.rs` lines 335-364): sweep every record at
the low 32 bits of `nowS`, decrement `num_armed` once per swept record,
then disarm if nothing is armed and otherwise reprogram via
`reset_active_alarm` (which reads `nowR`).  Returns the new state, the
dispatched callbacks aligned index-by-index with `clients`, and the
hardware action. -/
def alarm_fired (w : Nat) (s : AlarmDriverState) (nowS nowR : Nat) :
    AlarmDriverState × List (Option (Nat × Nat × Nat × Nat)) × HwAction :=
  let nowLow := intoU32 nowS
  let clients' := s.clients.map (fun d => (sweepOne nowLow d).1)
  let cbs := s.clients.map (fun d => (sweepOne nowLow d).2)
  let dec := s.clients.countP (fun d => ((sweepOne nowLow d).2).isSome)
  let numArmed' := s.num_armed - dec
  if numArmed' = 0 then
    (⟨numArmed', s.next_alarm, clients', s.ros_enabled⟩, cbs, HwAction.disarm)
  else
    let ra := reset_active_alarm w nowR clients'
    (⟨numArmed', ra.1, clients', s.ros_enabled⟩, cbs, ra.2)

/-- Little-endian bytes of a `u32`. -/
def u32le (v : Nat) : List Nat :=
  [v % 256, v / 2 ^ 8 % 256, v / 2 ^ 16 % 256, v / 2 ^ 24 % 256]

/-- Little-endian bytes of a `u64`. -/
def u64le (v : Nat) : List Nat :=
  [v % 256, v / 2 ^ 8 % 256, v / 2 ^ 16 % 256, v / 2 ^ 24 % 256,
   v / 2 ^ 32 % 256, v / 2 ^ 40 % 256, v / 2 ^ 48 % 256, v / 2 ^ 56 % 256]

/-- The per-grant body of `ROSDriver::update_values` in `alarm.rs` (lines
374-385): when the allowed region holds at least 12 bytes, overwrite its
first 12 bytes with `count : u32` followed by `now : u64`, both
little-endian; in every case increment the per-process counter with
wrapping. -/
def update_values_client (now : Nat) (d : AlarmData) : AlarmData :=
  let count := d.ros_count
  let region' := d.ros_region.map (fun buf =>
    if 12 ≤ buf.length then u32le count ++ u64le (now % 2 ^ 64) ++ buf.drop 12
    else buf)
  { d with ros_region := region', ros_count := (count + 1) % 2 ^ 32 }

/-- `ROSDriver::update_values` for `AlarmDriver` (`alarm.rs` lines
368-386): set `ros_enabled`, then update the caller's grant if it is
live (a failed grant entry is discarded). -/
def update_values (s : AlarmDriverState) (now pid : Nat) : AlarmDriverState :=
  let s' := { s with ros_enabled := true }
  match s'.clients.get? pid with
  | none => s'
  | some d => { s' with clients := s'.clients.set pid (update_values_client now d) }

/-- Whether an `Expiration` is `Enabled`. -/
def isEnabled : Expiration → Bool
  | Expiration.Disabled => false
  | Expiration.Enabled _ _ => true

/-- The number of `Enabled` grant records. -/
def countEnabled (clients : List AlarmData) : Nat :=
  clients.countP (fun d => isEnabled d.expiration)

/-- The stored fields of a record fit in `u32` (always true in the Rust
source, where the fields have type `u32`). -/
def boundedExp : Expiration → Prop
  | Expiration.Disabled => True
  | Expiration.Enabled r t => r < 2 ^ 32 ∧ t < 2 ^ 32

instance : DecidablePred boundedExp := fun e => by
  cases e <;> simp only [boundedExp] <;> infer_instance

/-- Well-formedness of the driver state: `num_armed` equals the number of
`Enabled` records, and all stored fields fit in `u32`. -/
def wf (s : AlarmDriverState) : Prop :=
  s.num_armed = countEnabled s.clients ∧ ∀ d ∈ s.clients, boundedExp d.expiration

instance (s : AlarmDriverState) : Decidable (wf s) := by
  unfold wf; infer_instance

/-- Modular distance from `now` to the fire point `reference + dt`, at
width 32. -/
def fireDist (now reference dt : Nat) : Nat :=
  wrapSub 32 (wrapAdd 32 reference dt) now

/-- A record is `good` at instant `now` when it is not yet elapsed
(`now` inside its circular `[reference, end)` interval) and both its age
`now - reference` and its remaining time `end - now` are below `2 ^ 31`. -/
def goodExp (now : Nat) : Expiration → Prop
  | Expiration.Disabled => True
  | Expiration.Enabled r t =>
    within_range 32 now r (wrapAdd 32 r t) = true ∧
    wrapSub 32 now r < 2 ^ 31 ∧ fireDist now r t < 2 ^ 31

instance (now : Nat) : DecidablePred (goodExp now) := fun e => by
  cases e <;> simp only [goodExp] <;> infer_instance

section Helpers

variable {α : Type}

/-- Setting an index that holds `b` overwrites it. -/
theorem getSet (l : List α) (i : Nat) (a b : α) (h : l[i]? = some b) :
    (l.set i a)[i]? = some a := by
  induction l generalizing i with
  | nil => simp at h
  | cons x xs ih =>
    cases i with
    | zero => simp
    | succ n => simpa using ih n (by simpa using h)

/-- Setting an index to the value it already holds is the identity. -/
theorem setSelf (l : List α) (i : Nat) (b : α) (h : l[i]? = some b) :
    l.set i b = l := by
  induction l generalizing i with
  | nil => simp at h
  | cons x xs ih =>
    cases i with
    | zero => simp_all
    | succ n => simpa using ih n (by simpa using h)

/-- Setting an index leaves the other indices unchanged. -/
theorem getSetNe (l : List α) (i j : Nat) (a : α) (h : i ≠ j) :
    (l.set i a)[j]? = l[j]? := by
  induction l generalizing i j with
  | nil => simp
  | cons x xs ih =>
    cases i with
    | zero => cases j with
      | zero => exact absurd rfl h
      | succ m => simp
    | succ n => cases j with
      | zero => simp
      | succ m => simpa using ih n m (by omega)

/-- How `countP` changes under `set`. -/
theorem countPSet (p : α → Bool) (l : List α) (i : Nat) (a b : α)
    (h : l[i]? = some b) :
    (l.set i a).countP p + (if p b then 1 else 0) =
      l.countP p + (if p a then 1 else 0) := by
  induction l generalizing i with
  | nil => simp at h
  | cons x xs ih =>
    cases i with
    | zero =>
      simp only [List.getElem?_cons_zero, Option.some.injEq] at h
      subst h
      simp only [List.set, List.countP_cons]
      omega
    | succ n =>
      simp only [List.getElem?_cons_succ] at h
      simp only [List.set, List.countP_cons]
      have := ih n h
      omega

/-- A membership witness from `countP`. -/
theorem countPPos (p : α → Bool) (l : List α) (h : 0 < l.countP p) :
    ∃ a ∈ l, p a = true := List.countP_pos_iff.mp h

end Helpers

theorem tickFrom_of_lt {w x : Nat} (h : x < 2 ^ w) : tickFrom w x = x :=
  Nat.mod_eq_of_lt h

theorem intoU32_of_lt {x : Nat} (h : x < 2 ^ 32) : intoU32 x = x :=
  Nat.mod_eq_of_lt h

/-- At width 32 the reconstructed reference is just the 32-bit reference. -/
theorem realReference_w32 (now reference : Nat) :
    realReference 32 now reference = reference % 2 ^ 32 := by
  simp only [realReference, tickFrom, intoU32, wrapAdd, wrapSub]
  have h32 : (2 : Nat) ^ 32 = 4294967296 := by norm_num
  rw [h32]
  split <;> omega

/-- C3, the concrete selection scenario: client A armed with
`reference = 100, delta = 50` and client B armed with
`reference = 120, delta = 10`; at `now = 120` the scan selects B
(fire time 130) and programs it into the hardware, for either iteration
order over the two records. -/
theorem alarm_c3 :
    reset_active_alarm 32 120
        [⟨Expiration.Enabled 100 50, 0, none, 0⟩,
         ⟨Expiration.Enabled 120 10, 1, none, 0⟩] =
      (Expiration.Enabled 120 10, HwAction.set_alarm 120 10) ∧
    reset_active_alarm 32 120
        [⟨Expiration.Enabled 120 10, 1, none, 0⟩,
         ⟨Expiration.Enabled 100 50, 0, none, 0⟩] =
      (Expiration.Enabled 120 10, HwAction.set_alarm 120 10) := by
  constructor <;> rfl

/-- C8: any command issued with a process identity that does not resolve
to a live grant record fails with the grant-entry error and leaves the
driver state untouched; `reset_active_alarm` is not invoked. -/
theorem alarm_c8 (w : Nat) (s : AlarmDriverState) (nowC nowR : Nat)
    (cmdType data data2 caller freq : Nat)
    (h : s.clients[caller]? = none) :
    command w s nowC nowR cmdType data data2 caller freq =
      ⟨s, CommandReturn.failure ErrorCode.INVALID_PROCESS, none⟩ := by
  simp [command, h]

/-- Witness for C8 at a concrete input. -/
theorem alarm_c8_witness :
    command 32 ⟨0, Expiration.Disabled, [], false⟩ 5 6 3 0 0 0 16000000 =
      ⟨⟨0, Expiration.Disabled, [], false⟩,
       CommandReturn.failure ErrorCode.INVALID_PROCESS, none⟩ :=
  alarm_c8 32 ⟨0, Expiration.Disabled, [], false⟩ 5 6 3 0 0 0 16000000 rfl

/-- C10: commands 0 (presence check), 1 (frequency) and 2 (capture now)
succeed for a process with a live record and change nothing: the whole
driver state (records, callbacks, `num_armed`, cached selection) is
untouched, and the hardware is neither reprogrammed nor disarmed. -/
theorem alarm_c10 (w : Nat) (s : AlarmDriverState) (nowC nowR : Nat)
    (data data2 caller freq : Nat) (td : AlarmData)
    (h : s.clients[caller]? = some td) :
    command w s nowC nowR 0 data data2 caller freq =
      ⟨s, CommandReturn.success, none⟩ ∧
    command w s nowC nowR 1 data data2 caller freq =
      ⟨s, CommandReturn.success_u32 freq, none⟩ ∧
    command w s nowC nowR 2 data data2 caller freq =
      ⟨s, CommandReturn.success_u32 (intoU32 nowC), none⟩ := by
  have hset := setSelf s.clients caller td h
  refine ⟨?_, ?_, ?_⟩ <;> simp [command, h, hset]

/-- Witness for C10 at a concrete input. -/
theorem alarm_c10_witness :
    command 32 ⟨0, Expiration.Disabled, [⟨Expiration.Disabled, 3, none, 0⟩], false⟩
        77 78 0 0 0 0 16000000 =
      ⟨⟨0, Expiration.Disabled, [⟨Expiration.Disabled, 3, none, 0⟩], false⟩,
       CommandReturn.success, none⟩ :=
  (alarm_c10 32 ⟨0, Expiration.Disabled, [⟨Expiration.Disabled, 3, none, 0⟩], false⟩
      77 78 0 0 0 16000000 ⟨Expiration.Disabled, 3, none, 0⟩ rfl).1

/-- Cancellation of 32-bit wrapping subtraction under wrapping addition. -/
theorem wrapAdd_wrapSub (a b : Nat) :
    wrapAdd 32 b (wrapSub 32 a b) = a % 2 ^ 32 := by
  simp only [wrapAdd, wrapSub]
  have h32 : (2 : Nat) ^ 32 = 4294967296 := by norm_num
  rw [h32]
  omega

/-- C6, the arm round-trip: for a process with a live record, command 4
with target `t` succeeds with fire time `t` and stores
`Enabled{now_low, t - now_low}`; command 5 with delta `d` succeeds with
fire time `now_low + d` and stores `Enabled{now_low, d}`; command 6 with
`(r, d)` succeeds with fire time `r + d` and stores `Enabled{r, d}`
(all arithmetic wrapping at 32 bits). -/
theorem alarm_c6 (s : AlarmDriverState) (nowC nowR data data2 caller freq : Nat)
    (td : AlarmData) (h : s.clients[caller]? = some td)
    (hn : nowC < 2 ^ 32) (hd : data < 2 ^ 32) (hd2 : data2 < 2 ^ 32) :
    ((command 32 s nowC nowR 4 data data2 caller freq).ret =
        CommandReturn.success_u32 data ∧
      (command 32 s nowC nowR 4 data data2 caller freq).state.clients[caller]? =
        some { td with expiration :=
                 Expiration.Enabled nowC (wrapSub 32 data nowC) }) ∧
    ((command 32 s nowC nowR 5 data data2 caller freq).ret =
        CommandReturn.success_u32 (wrapAdd 32 nowC data) ∧
      (command 32 s nowC nowR 5 data data2 caller freq).state.clients[caller]? =
        some { td with expiration := Expiration.Enabled nowC data }) ∧
    ((command 32 s nowC nowR 6 data data2 caller freq).ret =
        CommandReturn.success_u32 (wrapAdd 32 data data2) ∧
      (command 32 s nowC nowR 6 data data2 caller freq).state.clients[caller]? =
        some { td with expiration := Expiration.Enabled data data2 }) := by
  have hset := fun (a : AlarmData) => getSet s.clients caller a td h
  have hnn : intoU32 nowC = nowC := intoU32_of_lt hn
  have hsub : wrapSub 32 data nowC < 2 ^ 32 := Nat.mod_lt _ (by norm_num)
  refine ⟨⟨?_, ?_⟩, ⟨?_, ?_⟩, ⟨?_, ?_⟩⟩ <;>
    simp [command, h, rearm, hset, hnn, wrapAdd, Nat.mod_eq_of_lt, hn, hd, hd2, hsub,
          Nat.mod_eq_of_lt hd, Nat.mod_eq_of_lt hd2, Nat.mod_eq_of_lt hn,
          Nat.mod_eq_of_lt hsub]
  · have := wrapAdd_wrapSub data nowC
    simp only [wrapAdd, Nat.mod_eq_of_lt hd] at this
    simpa [CommandReturn.success_u32.injEq] using this
  all_goals refine ⟨by omega, by omega⟩

/-- Witness for C6 at a concrete input. -/
theorem alarm_c6_witness :
    ((command 32 ⟨0, Expiration.Disabled, [⟨Expiration.Disabled, 3, none, 0⟩], false⟩
          1000 1001 4 1500 0 0 16000000).ret = CommandReturn.success_u32 1500 ∧
      (command 32 ⟨0, Expiration.Disabled, [⟨Expiration.Disabled, 3, none, 0⟩], false⟩
          1000 1001 4 1500 0 0 16000000).state.clients[0]? =
        some ⟨Expiration.Enabled 1000 (wrapSub 32 1500 1000), 3, none, 0⟩) ∧
    ((command 32 ⟨0, Expiration.Disabled, [⟨Expiration.Disabled, 3, none, 0⟩], false⟩
          1000 1001 5 1500 0 0 16000000).ret =
        CommandReturn.success_u32 (wrapAdd 32 1000 1500) ∧
      (command 32 ⟨0, Expiration.Disabled, [⟨Expiration.Disabled, 3, none, 0⟩], false⟩
          1000 1001 5 1500 0 0 16000000).state.clients[0]? =
        some ⟨Expiration.Enabled 1000 1500, 3, none, 0⟩) ∧
    ((command 32 ⟨0, Expiration.Disabled, [⟨Expiration.Disabled, 3, none, 0⟩], false⟩
          1000 1001 6 1500 0 0 16000000).ret =
        CommandReturn.success_u32 (wrapAdd 32 1500 0) ∧
      (command 32 ⟨0, Expiration.Disabled, [⟨Expiration.Disabled, 3, none, 0⟩], false⟩
          1000 1001 6 1500 0 0 16000000).state.clients[0]? =
        some ⟨Expiration.Enabled 1500 0, 3, none, 0⟩) :=
  alarm_c6 ⟨0, Expiration.Disabled, [⟨Expiration.Disabled, 3, none, 0⟩], false⟩
    1000 1001 1500 0 0 16000000 ⟨Expiration.Disabled, 3, none, 0⟩ rfl
    (by norm_num) (by norm_num) (by norm_num)

/-- C7: stopping (command 3) an already-`Disabled` record fails with
`ALREADY` and changes nothing (state, records, `num_armed`, hardware all
untouched); stopping an `Enabled` record succeeds, disables it, decrements
`num_armed` by exactly one, and triggers a hardware reprogram. -/
theorem alarm_c7 (s : AlarmDriverState) (nowC nowR data data2 caller freq : Nat)
    (td : AlarmData) (h : s.clients[caller]? = some td) (hwf : wf s) :
    (td.expiration = Expiration.Disabled →
      command 32 s nowC nowR 3 data data2 caller freq =
        ⟨s, CommandReturn.failure ErrorCode.ALREADY, none⟩) ∧
    (∀ r t, td.expiration = Expiration.Enabled r t →
      (command 32 s nowC nowR 3 data data2 caller freq).ret = CommandReturn.success ∧
      (command 32 s nowC nowR 3 data data2 caller freq).state.clients[caller]? =
        some { td with expiration := Expiration.Disabled } ∧
      (command 32 s nowC nowR 3 data data2 caller freq).state.num_armed + 1 =
        s.num_armed ∧
      ((command 32 s nowC nowR 3 data data2 caller freq).hw).isSome = true) := by
  constructor
  · intro hdis
    have hset := setSelf s.clients caller td h
    simp [command, h, hdis, hset]
  · intro r t hen
    have hset := getSet s.clients caller ({ td with expiration := Expiration.Disabled }) td h
    have hmem : td ∈ s.clients := by
      have := List.getElem?_eq_some_iff.mp h
      obtain ⟨hlt, hget⟩ := this
      exact hget ▸ List.getElem_mem hlt
    have hpos : 0 < s.num_armed := by
      rcases hwf with ⟨hcount, _⟩
      rw [hcount]
      refine List.countP_pos_iff.mpr ⟨td, hmem, ?_⟩
      simp [isEnabled, hen]
    refine ⟨?_, ?_, ?_, ?_⟩ <;> simp [command, h, hen, hset] <;> omega

/-- Witness for C7 at a concrete input. -/
theorem alarm_c7_witness :
    (Expiration.Disabled = Expiration.Disabled →
      command 32 ⟨0, Expiration.Disabled, [⟨Expiration.Disabled, 3, none, 0⟩], false⟩
          9 9 3 0 0 0 16000000 =
        ⟨⟨0, Expiration.Disabled, [⟨Expiration.Disabled, 3, none, 0⟩], false⟩,
         CommandReturn.failure ErrorCode.ALREADY, none⟩) ∧
    (∀ r t, Expiration.Disabled = Expiration.Enabled r t →
      (command 32 ⟨0, Expiration.Disabled, [⟨Expiration.Disabled, 3, none, 0⟩], false⟩
          9 9 3 0 0 0 16000000).ret = CommandReturn.success ∧
      (command 32 ⟨0, Expiration.Disabled, [⟨Expiration.Disabled, 3, none, 0⟩], false⟩
          9 9 3 0 0 0 16000000).state.clients[0]? =
        some ⟨Expiration.Disabled, 3, none, 0⟩ ∧
      (command 32 ⟨0, Expiration.Disabled, [⟨Expiration.Disabled, 3, none, 0⟩], false⟩
          9 9 3 0 0 0 16000000).state.num_armed + 1 = 0 ∧
      ((command 32 ⟨0, Expiration.Disabled, [⟨Expiration.Disabled, 3, none, 0⟩], false⟩
          9 9 3 0 0 0 16000000).hw).isSome = true) :=
  alarm_c7 ⟨0, Expiration.Disabled, [⟨Expiration.Disabled, 3, none, 0⟩], false⟩
    9 9 0 0 0 16000000 ⟨Expiration.Disabled, 3, none, 0⟩ rfl (by decide)

/-- C9, counterexample.  The claim states that `update_values` publishes
`{count : u32, pending_or_extra : u32, now : u64}` little-endian whenever
the process buffer is at least 12 bytes long.  Under that layout the `now`
field starts at byte offset 8, so bytes 8..12 would hold the low 4
little-endian bytes of `now`.  For a process with a live record and a
12-byte buffer, the driver instead writes `count` at bytes 0..4 and the
full `now : u64` at bytes 4..12: bytes 8..12 hold the HIGH half of `now`,
so no value of `pending_or_extra` makes the claimed layout match. -/
theorem alarm_c9_counterexample :
    (update_values
        ⟨0, Expiration.Disabled,
         [⟨Expiration.Disabled, 0, some [0, 0, 0, 0, 0, 0, 0, 0, 0, 0, 0, 0], 5⟩],
         false⟩
        0x1122334455667788 0).clients[0]? =
      some ⟨Expiration.Disabled, 0,
            some [5, 0, 0, 0, 0x88, 0x77, 0x66, 0x55, 0x44, 0x33, 0x22, 0x11], 6⟩ ∧
    List.drop 8 [5, 0, 0, 0, 0x88, 0x77, 0x66, 0x55, 0x44, 0x33, 0x22, 0x11] ≠
      List.take 4 (u64le 0x1122334455667788) := by
  constructor
  · rfl
  · decide

/-- C9, amended: for a process with a live record, each `update_values`
invocation publishes `{count : u32, now : u64}` little-endian (12 bytes,
no `pending_or_extra` field) into the process buffer whenever that buffer
is at least 12 bytes long, leaves the buffer untouched otherwise, and in
every case increments the process's wrapping snapshot counter by one. -/
theorem alarm_c9_amended (s : AlarmDriverState) (now pid : Nat) (d : AlarmData)
    (h : s.clients[pid]? = some d) :
    (∀ buf, d.ros_region = some buf → 12 ≤ buf.length →
      (update_values s now pid).clients[pid]? =
        some { d with
               ros_region :=
                 some (u32le d.ros_count ++ u64le (now % 2 ^ 64) ++ buf.drop 12),
               ros_count := (d.ros_count + 1) % 2 ^ 32 }) ∧
    (∀ buf, d.ros_region = some buf → buf.length < 12 →
      (update_values s now pid).clients[pid]? =
        some { d with ros_count := (d.ros_count + 1) % 2 ^ 32 }) ∧
    (d.ros_region = none →
      (update_values s now pid).clients[pid]? =
        some { d with ros_count := (d.ros_count + 1) % 2 ^ 32 }) ∧
    ∀ d', (update_values s now pid).clients[pid]? = some d' →
      d'.ros_count = (d.ros_count + 1) % 2 ^ 32 := by
  have hset := fun (a : AlarmData) => getSet s.clients pid a d h
  refine ⟨?_, ?_, ?_, ?_⟩
  · intro buf hbuf hlen
    simp [update_values, h, update_values_client, hbuf, hlen, hset]
  · intro buf hbuf hlen
    have : ¬ 12 ≤ buf.length := by omega
    simp [update_values, h, update_values_client, hbuf, this, hset]
  · intro hnone
    simp [update_values, h, update_values_client, hnone, hset]
  · intro d' hd'
    simp [update_values, h, update_values_client, hset] at hd'
    subst hd'
    rfl

/-- Witness for the amended C9 at a concrete input. -/
theorem alarm_c9_witness :
    (update_values
        ⟨0, Expiration.Disabled,
         [⟨Expiration.Disabled, 0, some [0, 0, 0, 0, 0, 0, 0, 0, 0, 0, 0, 0], 5⟩],
         false⟩ 16 0).clients[0]? =
      some ⟨Expiration.Disabled, 0,
            some (u32le 5 ++ u64le (16 % 2 ^ 64) ++
                  List.drop 12 [0, 0, 0, 0, 0, 0, 0, 0, 0, 0, 0, 0]), (5 + 1) % 2 ^ 32⟩ :=
  (alarm_c9_amended
      ⟨0, Expiration.Disabled,
       [⟨Expiration.Disabled, 0, some [0, 0, 0, 0, 0, 0, 0, 0, 0, 0, 0, 0], 5⟩],
       false⟩ 16 0
      ⟨Expiration.Disabled, 0, some [0, 0, 0, 0, 0, 0, 0, 0, 0, 0, 0, 0], 5⟩ rfl).1
    [0, 0, 0, 0, 0, 0, 0, 0, 0, 0, 0, 0] rfl (by norm_num)

/-- The components of `alarm_fired` that do not depend on the
disarm/reprogram branch. -/
theorem alarm_fired_parts (w : Nat) (s : AlarmDriverState) (nowS nowR : Nat) :
    (alarm_fired w s nowS nowR).1.clients =
      s.clients.map (fun d => (sweepOne (intoU32 nowS) d).1) ∧
    (alarm_fired w s nowS nowR).2.1 =
      s.clients.map (fun d => (sweepOne (intoU32 nowS) d).2) ∧
    (alarm_fired w s nowS nowR).1.num_armed =
      s.num_armed -
        s.clients.countP (fun d => ((sweepOne (intoU32 nowS) d).2).isSome) := by
  unfold alarm_fired
  by_cases h : s.num_armed -
      s.clients.countP (fun d => ((sweepOne (intoU32 nowS) d).2).isSome) = 0 <;>
    simp [h]

/-- A record swept by `sweepOne` was `Enabled`. -/
theorem sweepOne_isSome_enabled (nowLow : Nat) (d : AlarmData)
    (h : ((sweepOne nowLow d).2).isSome = true) :
    isEnabled d.expiration = true := by
  cases hd : d.expiration with
  | Disabled => simp [sweepOne, hd] at h
  | Enabled r t => simp [isEnabled]

/-- C5: in the hardware-fired sweep, an `Enabled` record whose circular
`[reference, reference + dt)` interval no longer contains the low 32 bits
of `now` is disabled and gets exactly one callback with arguments
`(now_low, reference + dt, 0)`; a record still inside its interval (or a
`Disabled` one) is left unchanged, with no callback; `num_armed` drops by
exactly the number of swept records.  Concretely, a record with
`reference = 0xFFFFFFF0`, `delta = 0x20` fires at `now_low = 0x10`
(post-wrap) and at no `now_low` inside its interval. -/
theorem alarm_c5 (s : AlarmDriverState) (nowS nowR : Nat) (i : Nat) (d : AlarmData)
    (hd : s.clients[i]? = some d) (hb : boundedExp d.expiration) :
    (∀ r t, d.expiration = Expiration.Enabled r t →
      (within_range 32 (intoU32 nowS) r (wrapAdd 32 r t) = false →
        (alarm_fired 32 s nowS nowR).1.clients[i]? =
          some { d with expiration := Expiration.Disabled } ∧
        (alarm_fired 32 s nowS nowR).2.1[i]? =
          some (some (d.callback, intoU32 nowS, wrapAdd 32 r t, 0))) ∧
      (within_range 32 (intoU32 nowS) r (wrapAdd 32 r t) = true →
        (alarm_fired 32 s nowS nowR).1.clients[i]? = some d ∧
        (alarm_fired 32 s nowS nowR).2.1[i]? = some none)) ∧
    (d.expiration = Expiration.Disabled →
      (alarm_fired 32 s nowS nowR).1.clients[i]? = some d ∧
      (alarm_fired 32 s nowS nowR).2.1[i]? = some none) ∧
    (wf s →
      (alarm_fired 32 s nowS nowR).1.num_armed +
        s.clients.countP (fun d => ((sweepOne (intoU32 nowS) d).2).isSome) =
        s.num_armed) ∧
    (sweepOne 0x10 ⟨Expiration.Enabled 0xFFFFFFF0 0x20, 7, none, 0⟩ =
      (⟨Expiration.Disabled, 7, none, 0⟩, some (7, 0x10, 0x10, 0))) ∧
    (∀ n, within_range 32 n 0xFFFFFFF0 0x10 = true →
      sweepOne n ⟨Expiration.Enabled 0xFFFFFFF0 0x20, 7, none, 0⟩ =
        (⟨Expiration.Enabled 0xFFFFFFF0 0x20, 7, none, 0⟩, none)) := by
  obtain ⟨hcl, hcb, hna⟩ := alarm_fired_parts 32 s nowS nowR
  refine ⟨?_, ?_, ?_, ?_, ?_⟩
  · intro r t hen
    have hr : r < 2 ^ 32 := by
      rw [hen] at hb; exact hb.1
    have htf : tickFrom 32 r = r := tickFrom_of_lt hr
    constructor
    · intro hfire
      rw [hcl, hcb, List.getElem?_map, List.getElem?_map, hd]
      simp [sweepOne, hen, htf, hfire]
    · intro hstay
      rw [hcl, hcb, List.getElem?_map, List.getElem?_map, hd]
      simp [sweepOne, hen, htf, hstay]
  · intro hdis
    rw [hcl, hcb, List.getElem?_map, List.getElem?_map, hd]
    simp [sweepOne, hdis]
  · intro hwf
    rw [hna]
    have hle : s.clients.countP (fun d => ((sweepOne (intoU32 nowS) d).2).isSome) ≤
        s.clients.countP (fun d => isEnabled d.expiration) :=
      List.countP_mono_left (fun d _ h => sweepOne_isSome_enabled (intoU32 nowS) d h)
    have := hwf.1
    unfold countEnabled at this
    omega
  · rfl
  · intro n h
    simp [sweepOne, tickFrom, wrapAdd]
    exact h

/-- Witness for C5 at a concrete input: one elapsed record fires once. -/
theorem alarm_c5_witness :
    within_range 32 (intoU32 200) 100 (wrapAdd 32 100 50) = false ∧
    ((alarm_fired 32 ⟨1, Expiration.Disabled,
        [⟨Expiration.Enabled 100 50, 7, none, 0⟩], false⟩ 200 200).1.clients[0]? =
      some ⟨Expiration.Disabled, 7, none, 0⟩ ∧
     (alarm_fired 32 ⟨1, Expiration.Disabled,
        [⟨Expiration.Enabled 100 50, 7, none, 0⟩], false⟩ 200 200).2.1[0]? =
      some (some (7, intoU32 200, wrapAdd 32 100 50, 0))) :=
  ⟨by decide,
   ((alarm_c5 ⟨1, Expiration.Disabled, [⟨Expiration.Enabled 100 50, 7, none, 0⟩], false⟩
       200 200 0 ⟨Expiration.Enabled 100 50, 7, none, 0⟩ rfl (by decide)).1
     100 50 rfl).1 (by decide)⟩


/-- How `countEnabled` changes when one record is overwritten. -/
theorem countEnabled_set (l : List AlarmData) (i : Nat) (a b : AlarmData)
    (h : l[i]? = some b) :
    countEnabled (l.set i a) + (isEnabled b.expiration).toNat =
      countEnabled l + (isEnabled a.expiration).toNat := by
  have := countPSet (fun d => isEnabled d.expiration) l i a b h
  unfold countEnabled
  cases hb : isEnabled b.expiration <;> cases ha : isEnabled a.expiration <;>
    simp only [hb, ha, Bool.toNat_true, Bool.toNat_false] <;>
    simp [hb, ha] at this <;> omega

/-- The count equality and boundedness survive a `rearm` update. -/
theorem wf_rearm_state (s : AlarmDriverState) (caller : Nat) (td : AlarmData)
    (hc : s.clients[caller]? = some td)
    (hcount : s.num_armed = countEnabled s.clients)
    (hbound : ∀ d ∈ s.clients, boundedExp d.expiration) (ref dtv : Nat) :
    (rearm td s.num_armed ref dtv).2.1 =
      countEnabled (s.clients.set caller (rearm td s.num_armed ref dtv).1) ∧
    ∀ d ∈ s.clients.set caller (rearm td s.num_armed ref dtv).1,
      boundedExp d.expiration := by
  constructor
  · have hkey := countEnabled_set s.clients caller (rearm td s.num_armed ref dtv).1 td hc
    have ha : isEnabled ((rearm td s.num_armed ref dtv).1).expiration = true := by
      simp [rearm, isEnabled]
    rw [ha] at hkey
    cases hexp : td.expiration with
    | Disabled =>
      rw [hexp] at hkey
      simp only [isEnabled, Bool.toNat_false, Bool.toNat_true] at hkey
      simp only [rearm, hexp] at hkey ⊢
      omega
    | Enabled r t =>
      rw [hexp] at hkey
      simp only [isEnabled, Bool.toNat_true] at hkey
      simp only [rearm, hexp] at hkey ⊢
      omega
  · intro d hmem
    rcases List.mem_or_eq_of_mem_set hmem with hm | rfl
    · exact hbound d hm
    · simp only [rearm]
      exact ⟨Nat.mod_lt _ (by norm_num), Nat.mod_lt _ (by norm_num)⟩

/-- The count equality and boundedness survive a successful stop. -/
theorem wf_stop_state (s : AlarmDriverState) (caller : Nat) (td : AlarmData)
    (hc : s.clients[caller]? = some td)
    (hcount : s.num_armed = countEnabled s.clients)
    (hbound : ∀ d ∈ s.clients, boundedExp d.expiration)
    (r t : Nat) (hexp : td.expiration = Expiration.Enabled r t) :
    s.num_armed - 1 =
      countEnabled (s.clients.set caller { td with expiration := Expiration.Disabled }) ∧
    ∀ d ∈ s.clients.set caller { td with expiration := Expiration.Disabled },
      boundedExp d.expiration := by
  constructor
  · have hkey := countEnabled_set s.clients caller
      { td with expiration := Expiration.Disabled } td hc
    rw [hexp] at hkey
    simp only [isEnabled, Bool.toNat_false, Bool.toNat_true] at hkey
    omega
  · intro d hmem
    rcases List.mem_or_eq_of_mem_set hmem with hm | rfl
    · exact hbound d hm
    · trivial

/-- `wf` is preserved by every `command` invocation. -/
theorem wf_command (w : Nat) (s : AlarmDriverState) (nowC nowR : Nat)
    (cmdType data data2 caller freq : Nat) (h : wf s) :
    wf (command w s nowC nowR cmdType data data2 caller freq).state := by
  obtain ⟨hcount, hbound⟩ := h
  rcases hc : s.clients[caller]? with _ | td
  · simpa [command, hc, wf] using ⟨hcount, hbound⟩
  have hself := setSelf s.clients caller td hc
  rcases cmdType with _ | _ | _ | _ | _ | _ | _ | k
  · simpa [command, hc, hself, wf] using ⟨hcount, hbound⟩
  · simpa [command, hc, hself, wf] using ⟨hcount, hbound⟩
  · simpa [command, hc, hself, wf] using ⟨hcount, hbound⟩
  · show wf (command w s nowC nowR 3 data data2 caller freq).state
    cases hexp : td.expiration with
    | Disabled => simpa [command, hc, hexp, hself, wf] using ⟨hcount, hbound⟩
    | Enabled r t =>
      obtain ⟨h1, h2⟩ := wf_stop_state s caller td hc hcount hbound r t hexp
      simp only [command, List.get?_eq_getElem?, hc, hexp]
      exact ⟨h1, h2⟩
  · show wf (command w s nowC nowR 4 data data2 caller freq).state
    obtain ⟨h1, h2⟩ := wf_rearm_state s caller td hc hcount hbound
      (intoU32 nowC) (wrapSub 32 data (intoU32 nowC))
    simp only [command, List.get?_eq_getElem?, hc]
    exact ⟨h1, h2⟩
  · show wf (command w s nowC nowR 5 data data2 caller freq).state
    obtain ⟨h1, h2⟩ := wf_rearm_state s caller td hc hcount hbound (intoU32 nowC) data
    simp only [command, List.get?_eq_getElem?, hc]
    exact ⟨h1, h2⟩
  · show wf (command w s nowC nowR 6 data data2 caller freq).state
    obtain ⟨h1, h2⟩ := wf_rearm_state s caller td hc hcount hbound data data2
    simp only [command, List.get?_eq_getElem?, hc]
    exact ⟨h1, h2⟩
  · show wf (command w s nowC nowR (k + 7) data data2 caller freq).state
    have heq : command w s nowC nowR (k + 7) data data2 caller freq =
        ⟨⟨s.num_armed, s.next_alarm, s.clients.set caller td, s.ros_enabled⟩,
         CommandReturn.failure ErrorCode.NOSUPPORT, none⟩ := by
      simp [command, hc]
    rw [heq, hself]
    exact ⟨hcount, hbound⟩

/-- Counting via `if` equals counting via `Bool.toNat`. -/
theorem ifToNat (b : Bool) : (if b = true then 1 else 0 : Nat) = b.toNat := by
  cases b <;> rfl

/-- `wf` is preserved by the hardware-fired handler. -/
theorem wf_fired (w : Nat) (s : AlarmDriverState) (nowS nowR : Nat) (h : wf s) :
    wf (alarm_fired w s nowS nowR).1 := by
  obtain ⟨hcount, hbound⟩ := h
  obtain ⟨hcl, _, hna⟩ := alarm_fired_parts w s nowS nowR
  have helem : ∀ x : AlarmData,
      (isEnabled ((sweepOne (intoU32 nowS) x).1).expiration).toNat +
        (((sweepOne (intoU32 nowS) x).2).isSome).toNat =
      (isEnabled x.expiration).toNat := by
    intro x
    cases hx : x.expiration with
    | Disabled => simp [sweepOne, hx, isEnabled]
    | Enabled r t =>
      by_cases hf : within_range 32 (intoU32 nowS) (tickFrom 32 r) (wrapAdd 32 r t) = true
      · simp [sweepOne, hx, hf, isEnabled]
      · simp only [Bool.not_eq_true] at hf
        simp [sweepOne, hx, hf, isEnabled]
  have hsum : ∀ l : List AlarmData,
      (l.map (fun d => (sweepOne (intoU32 nowS) d).1)).countP
          (fun d => isEnabled d.expiration) +
        l.countP (fun d => ((sweepOne (intoU32 nowS) d).2).isSome) =
      l.countP (fun d => isEnabled d.expiration) := by
    intro l
    induction l with
    | nil => simp
    | cons x xs ih =>
      simp only [List.map_cons, List.countP_cons]
      have he := helem x
      simp only [ifToNat]
      cases h1 : isEnabled ((sweepOne (intoU32 nowS) x).1).expiration <;>
        cases h2 : ((sweepOne (intoU32 nowS) x).2).isSome <;>
        cases h3 : isEnabled x.expiration <;>
        simp only [h1, h2, h3, Bool.toNat_true, Bool.toNat_false] at he ⊢ <;>
        omega
  constructor
  · rw [hna, hcl]
    unfold countEnabled at hcount ⊢
    have hle : s.clients.countP (fun d => ((sweepOne (intoU32 nowS) d).2).isSome) ≤
        s.clients.countP (fun d => isEnabled d.expiration) :=
      List.countP_mono_left (fun d _ hh => sweepOne_isSome_enabled (intoU32 nowS) d hh)
    have := hsum s.clients
    omega
  · rw [hcl]
    intro d hmem
    obtain ⟨a, hma, hda⟩ := List.mem_map.mp hmem
    cases hx : a.expiration with
    | Disabled =>
      have hd : d = a := by rw [← hda]; simp [sweepOne, hx]
      rw [hd, hx]; trivial
    | Enabled r t =>
      have hba := hbound a hma
      by_cases hf : within_range 32 (intoU32 nowS) (tickFrom 32 r) (wrapAdd 32 r t) = true
      · have hd : d = a := by rw [← hda]; simp [sweepOne, hx, hf]
        rw [hd]; exact hba
      · simp only [Bool.not_eq_true] at hf
        have hd : d = { a with expiration := Expiration.Disabled } := by
          rw [← hda]; simp [sweepOne, hx, hf]
        rw [hd]; trivial

/-- C2: the count invariant — `num_armed` equals the number of `Enabled`
records (together with the `u32` boundedness of stored fields) — is
preserved by every engine operation: every `command` invocation (a rearm
increments it exactly on a `Disabled` to `Enabled` transition, stop
decrements it exactly when the record was `Enabled`, errors change
nothing) and the hardware-fired sweep (one decrement per swept record). -/
theorem alarm_c2 :
    (∀ (w : Nat) (s : AlarmDriverState) (nowC nowR cmdType data data2 caller freq : Nat),
      wf s → wf (command w s nowC nowR cmdType data data2 caller freq).state) ∧
    (∀ (w : Nat) (s : AlarmDriverState) (nowS nowR : Nat),
      wf s → wf (alarm_fired w s nowS nowR).1) :=
  ⟨fun w s nowC nowR cmdType data data2 caller freq h =>
      wf_command w s nowC nowR cmdType data data2 caller freq h,
   fun w s nowS nowR h => wf_fired w s nowS nowR h⟩

/-- Witness for C2 at a concrete input: arming a disabled record via
command 6 preserves the invariant. -/
theorem alarm_c2_witness :
    wf (command 32 ⟨1, Expiration.Disabled,
          [⟨Expiration.Enabled 5 9, 0, none, 0⟩, ⟨Expiration.Disabled, 1, none, 0⟩],
          false⟩ 40 41 6 100 200 1 16000000).state :=
  alarm_c2.1 32 ⟨1, Expiration.Disabled,
    [⟨Expiration.Enabled 5 9, 0, none, 0⟩, ⟨Expiration.Disabled, 1, none, 0⟩], false⟩
    40 41 6 100 200 1 16000000 (by decide)

/-- Modelled from the spec (the width-extension paragraph), written
independently of the source: `high_bits = now_full - now_low` (an exact
multiple of `2 ^ 32`); when the candidate's `reference` exceeds `now_low`
the true high bits are `high_bits - 2 ^ 32`; the full-width reference is
`high_bits' + reference`, reduced to the counter width. -/
def realReferenceSpec (w now reference : Nat) : Int :=
  let nowLow : Int := (now : Int) % 2 ^ 32
  let highBits : Int := (now : Int) - nowLow
  let highBits' : Int :=
    if nowLow < (reference : Int) then highBits - 2 ^ 32 else highBits
  (highBits' + (reference : Int)) % ((2 : Int) ^ w)

/-- C4: the reference passed to `set_alarm` is `high_bits + reference`
with `high_bits = now_full - now_low`, minus `2 ^ 32` (in wrapping
arithmetic) exactly when the 32-bit `reference` exceeds `now_low` — shown
for counter widths 64 and 32 (where the subtraction of `bit33` is a
no-op).  Concretely, a 64-bit timer at `now = 0x1_0000_0050` with
candidate `reference = 0xFFFFFFF0` reconstructs `0x0_FFFFFFF0`, not
`0x1_FFFFFFF0`. -/
theorem alarm_c4 :
    (∀ now reference : Nat, now < 2 ^ 64 → reference < 2 ^ 32 →
      ((realReference 64 now reference : Nat) : Int) =
        realReferenceSpec 64 now reference) ∧
    (∀ now reference : Nat, now < 2 ^ 32 → reference < 2 ^ 32 →
      ((realReference 32 now reference : Nat) : Int) =
        realReferenceSpec 32 now reference) ∧
    realReference 64 0x100000050 0xFFFFFFF0 = 0xFFFFFFF0 := by
  refine ⟨?_, ?_, by norm_num [realReference, wrapAdd, wrapSub, tickFrom, intoU32]⟩
  · intro now reference hnow href
    simp only [realReference, realReferenceSpec, wrapAdd, wrapSub, tickFrom, intoU32]
    have e64 : (2 : Nat) ^ 64 = 18446744073709551616 := by norm_num
    have e32 : (2 : Nat) ^ 32 = 4294967296 := by norm_num
    have i64 : (2 : Int) ^ 64 = 18446744073709551616 := by norm_num
    have i32 : (2 : Int) ^ 32 = 4294967296 := by norm_num
    rw [e64, e32] at *
    rw [i64, i32]
    split_ifs <;> push_cast <;> omega
  · intro now reference hnow href
    simp only [realReference, realReferenceSpec, wrapAdd, wrapSub, tickFrom, intoU32]
    have e32 : (2 : Nat) ^ 32 = 4294967296 := by norm_num
    have i32 : (2 : Int) ^ 32 = 4294967296 := by norm_num
    rw [e32] at *
    rw [i32]
    split_ifs <;> push_cast <;> omega

/-- Witness for C4 at the spec's concrete input. -/
theorem alarm_c4_witness :
    ((realReference 64 0x100000050 0xFFFFFFF0 : Nat) : Int) =
      realReferenceSpec 64 0x100000050 0xFFFFFFF0 :=
  alarm_c4.1 0x100000050 0xFFFFFFF0 (by norm_num) (by norm_num)

set_option maxHeartbeats 1000000

/-- Under the half-range conditions (`goodExp`), rule 2 of the scan —
adopt the candidate whose `end` lies in the current earliest's circular
interval — is exactly the comparison of modular distances-to-fire. -/
theorem adopt_iff (now cr ct rr rt : Nat) (hn : now < 2 ^ 32)
    (hcr : cr < 2 ^ 32) (hct : ct < 2 ^ 32) (hrr : rr < 2 ^ 32) (hrt : rt < 2 ^ 32)
    (hgc : within_range 32 now cr (wrapAdd 32 cr ct) = true)
    (hac : wrapSub 32 now cr < 2 ^ 31) (hdc : fireDist now cr ct < 2 ^ 31)
    (hgr : within_range 32 now rr (wrapAdd 32 rr rt) = true)
    (har : wrapSub 32 now rr < 2 ^ 31) (hdr : fireDist now rr rt < 2 ^ 31) :
    (within_range 32 (wrapAdd 32 rr rt) cr (wrapAdd 32 cr ct) = true) ↔
      (fireDist now rr rt < fireDist now cr ct) := by
  simp only [within_range, fireDist, wrapAdd, wrapSub, decide_eq_true_eq]
    at hgc hac hdc hgr har hdr ⊢
  omega

/-- The scan skips `Disabled` records: over an all-`Disabled` list it
returns the accumulator. -/
theorem selectEarliest_all_disabled (w nlb : Nat) (l : List AlarmData)
    (acc : Expiration × Nat) (h : ∀ d ∈ l, isEnabled d.expiration = false) :
    l.foldl (resetStep w nlb) acc = acc := by
  induction l generalizing acc with
  | nil => rfl
  | cons x xs ih =>
    have hx := h x (by simp)
    cases hxe : x.expiration with
    | Disabled =>
      simp only [List.foldl_cons]
      rw [show resetStep w nlb acc x = acc from by simp [resetStep, hxe]]
      exact ih _ (fun d hd => h d (by simp [hd]))
    | Enabled r t =>
      rw [hxe] at hx
      simp [isEnabled] at hx

/-- The earliest-candidate scan at width 32, over records that are all
`good` at `now`: the resulting candidate is one of the scanned records
(or the accumulator) and its distance-to-fire is minimal. -/
theorem selectEarliest_min (now : Nat) (hn : now < 2 ^ 32) (l : List AlarmData) :
    ∀ acc : Expiration × Nat,
      (∀ d ∈ l, boundedExp d.expiration ∧ goodExp now d.expiration) →
      (acc.1 = Expiration.Disabled ∨
        (boundedExp acc.1 ∧ goodExp now acc.1 ∧ isEnabled acc.1 = true)) →
      ((l.foldl (resetStep 32 now) acc).1 = Expiration.Disabled →
        acc.1 = Expiration.Disabled ∧ ∀ d ∈ l, isEnabled d.expiration = false) ∧
      (∀ rr rt, (l.foldl (resetStep 32 now) acc).1 = Expiration.Enabled rr rt →
        (boundedExp (Expiration.Enabled rr rt) ∧
         goodExp now (Expiration.Enabled rr rt)) ∧
        (acc.1 = Expiration.Enabled rr rt ∨
          ∃ d ∈ l, d.expiration = Expiration.Enabled rr rt) ∧
        (∀ cr ct, acc.1 = Expiration.Enabled cr ct →
          fireDist now rr rt ≤ fireDist now cr ct) ∧
        (∀ d ∈ l, ∀ r t, d.expiration = Expiration.Enabled r t →
          fireDist now rr rt ≤ fireDist now r t)) := by
  induction l with
  | nil =>
    intro acc _ hacc
    refine ⟨fun h => ⟨h, by simp⟩, ?_⟩
    intro rr rt hres
    simp only [List.foldl_nil] at hres
    rcases hacc with hd | ⟨hb, hg, _⟩
    · rw [hd] at hres; exact absurd hres (by simp)
    · rw [hres] at hb hg
      refine ⟨⟨hb, hg⟩, Or.inl hres, ?_, by simp⟩
      intro cr ct hacc1
      rw [hres] at hacc1
      cases hacc1
      exact le_refl _
  | cons x xs ih =>
    intro acc hl hacc
    have hlx := hl x (by simp)
    have hlxs : ∀ d ∈ xs, boundedExp d.expiration ∧ goodExp now d.expiration :=
      fun d hd => hl d (by simp [hd])
    simp only [List.foldl_cons]
    cases hxe : x.expiration with
    | Disabled =>
      have hstep : resetStep 32 now acc x = acc := by simp [resetStep, hxe]
      rw [hstep]
      obtain ⟨ih1, ih2⟩ := ih acc hlxs hacc
      constructor
      · intro hres
        obtain ⟨ha, hall⟩ := ih1 hres
        refine ⟨ha, ?_⟩
        intro d hd
        rcases List.mem_cons.mp hd with rfl | hd'
        · simp [isEnabled, hxe]
        · exact hall d hd'
      · intro rr rt hres
        obtain ⟨hgd, hmem, hvsacc, hmin⟩ := ih2 rr rt hres
        refine ⟨hgd, ?_, hvsacc, ?_⟩
        · rcases hmem with h | ⟨d, hd, he⟩
          · exact Or.inl h
          · exact Or.inr ⟨d, by simp [hd], he⟩
        · intro d hd r t he
          rcases List.mem_cons.mp hd with rfl | hd'
          · rw [hxe] at he; exact absurd he (by simp)
          · exact hmin d hd' r t he
    | Enabled xr xt =>
      rw [hxe] at hlx
      obtain ⟨⟨hxr, hxt⟩, hgx⟩ := hlx
      obtain ⟨hgxw, hgxa, hgxd⟩ := hgx
      rcases hacc with hacc1 | ⟨hbacc, hgacc, hen⟩
      · -- accumulator still Disabled: adopt x
        have hstep : resetStep 32 now acc x =
            (x.expiration, wrapAdd 32 (tickFrom 32 xr) (tickFrom 32 xt)) := by
          simp [resetStep, hxe, hacc1]
        rw [hstep]
        have hacc' : (x.expiration, wrapAdd 32 (tickFrom 32 xr) (tickFrom 32 xt)).1 =
              Expiration.Disabled ∨
            (boundedExp (x.expiration, wrapAdd 32 (tickFrom 32 xr) (tickFrom 32 xt)).1 ∧
             goodExp now (x.expiration, wrapAdd 32 (tickFrom 32 xr) (tickFrom 32 xt)).1 ∧
             isEnabled (x.expiration, wrapAdd 32 (tickFrom 32 xr) (tickFrom 32 xt)).1 =
               true) := by
          right
          rw [hxe]
          exact ⟨⟨hxr, hxt⟩, ⟨hgxw, hgxa, hgxd⟩, rfl⟩
        obtain ⟨ih1, ih2⟩ := ih _ hlxs hacc'
        constructor
        · intro hres
          obtain ⟨ha, _⟩ := ih1 hres
          rw [hxe] at ha
          exact absurd ha (by simp)
        · intro rr rt hres
          obtain ⟨hgd, hmem, hvsacc, hmin⟩ := ih2 rr rt hres
          refine ⟨hgd, ?_, ?_, ?_⟩
          · rcases hmem with h | ⟨d, hd, he⟩
            · rw [hxe] at h
              exact Or.inr ⟨x, by simp, by rw [hxe]; exact h⟩
            · exact Or.inr ⟨d, by simp [hd], he⟩
          · intro cr ct h
            rw [hacc1] at h
            exact absurd h (by simp)
          · intro d hd r t he
            rcases List.mem_cons.mp hd with rfl | hd'
            · rw [hxe] at he
              cases he
              exact hvsacc _ _ (by rw [hxe])
            · exact hmin d hd' r t he
      · -- accumulator Enabled: rules 2 and 3
        cases hacc1 : acc.1 with
        | Disabled =>
          rw [hacc1] at hen
          simp [isEnabled] at hen
        | Enabled cr ct =>
          rw [hacc1] at hbacc hgacc
          obtain ⟨hcr, hct⟩ := hbacc
          obtain ⟨hgcw, hgca, hgcd⟩ := hgacc
          have hstep : resetStep 32 now acc x =
              if within_range 32 (wrapAdd 32 xr xt) cr (wrapAdd 32 cr ct) then
                (x.expiration, wrapAdd 32 xr xt)
              else acc := by
            simp only [resetStep, hxe, hacc1, tickFrom_of_lt hxr, tickFrom_of_lt hxt,
              tickFrom_of_lt hcr, tickFrom_of_lt hct, hgcw]
            simp
          have hbiff := adopt_iff now cr ct xr xt hn hcr hct hxr hxt hgcw hgca hgcd
            hgxw hgxa hgxd
          by_cases hlt : fireDist now xr xt < fireDist now cr ct
          · have hcond : within_range 32 (wrapAdd 32 xr xt) cr (wrapAdd 32 cr ct) =
                true := hbiff.mpr hlt
            rw [hstep, if_pos hcond]
            have hacc' : ((x.expiration, wrapAdd 32 xr xt) : Expiration × Nat).1 =
                  Expiration.Disabled ∨
                (boundedExp ((x.expiration, wrapAdd 32 xr xt) : Expiration × Nat).1 ∧
                 goodExp now ((x.expiration, wrapAdd 32 xr xt) : Expiration × Nat).1 ∧
                 isEnabled ((x.expiration, wrapAdd 32 xr xt) : Expiration × Nat).1 =
                   true) := by
              right
              rw [hxe]
              exact ⟨⟨hxr, hxt⟩, ⟨hgxw, hgxa, hgxd⟩, rfl⟩
            obtain ⟨ih1, ih2⟩ := ih _ hlxs hacc'
            constructor
            · intro hres
              obtain ⟨ha, _⟩ := ih1 hres
              rw [hxe] at ha
              exact absurd ha (by simp)
            · intro rr rt hres
              obtain ⟨hgd, hmem, hvsacc, hmin⟩ := ih2 rr rt hres
              have hvsx : fireDist now rr rt ≤ fireDist now xr xt := by
                rcases hmem with h | _
                · rw [hxe] at h
                  cases h
                  exact le_refl _
                · exact hvsacc _ _ (by rw [hxe])
              refine ⟨hgd, ?_, ?_, ?_⟩
              · rcases hmem with h | ⟨d, hd, he⟩
                · rw [hxe] at h
                  exact Or.inr ⟨x, by simp, by rw [hxe]; exact h⟩
                · exact Or.inr ⟨d, by simp [hd], he⟩
              · intro cr' ct' h
                injection h with h1 h2
                subst h1
                subst h2
                exact le_trans hvsx (le_of_lt hlt)
              · intro d hd r t he
                rcases List.mem_cons.mp hd with rfl | hd'
                · rw [hxe] at he
                  cases he
                  exact hvsx
                · exact hmin d hd' r t he
          · have hcond : within_range 32 (wrapAdd 32 xr xt) cr (wrapAdd 32 cr ct) =
                false := by
              cases hc : within_range 32 (wrapAdd 32 xr xt) cr (wrapAdd 32 cr ct)
              · rfl
              · exact absurd (hbiff.mp hc) hlt
            rw [hstep, if_neg (by rw [hcond]; exact Bool.false_ne_true)]
            have hacc2 : acc.1 = Expiration.Disabled ∨
                (boundedExp acc.1 ∧ goodExp now acc.1 ∧ isEnabled acc.1 = true) := by
              right
              rw [hacc1]
              exact ⟨⟨hcr, hct⟩, ⟨hgcw, hgca, hgcd⟩, rfl⟩
            obtain ⟨ih1, ih2⟩ := ih acc hlxs hacc2
            constructor
            · intro hres
              obtain ⟨ha, _⟩ := ih1 hres
              rw [hacc1] at ha
              exact absurd ha (by simp)
            · intro rr rt hres
              obtain ⟨hgd, hmem, hvsacc, hmin⟩ := ih2 rr rt hres
              have hvsc : fireDist now rr rt ≤ fireDist now cr ct :=
                hvsacc cr ct hacc1
              have hvsacc' : ∀ cr' ct',
                  Expiration.Enabled cr ct = Expiration.Enabled cr' ct' →
                  fireDist now rr rt ≤ fireDist now cr' ct' :=
                fun cr' ct' h => hvsacc cr' ct' (hacc1.trans h)
              refine ⟨hgd, ?_, hvsacc', ?_⟩
              · rcases hmem with h | ⟨d, hd, he⟩
                · exact Or.inl (hacc1.symm.trans h)
                · exact Or.inr ⟨d, by simp [hd], he⟩
              · intro d hd r t he
                rcases List.mem_cons.mp hd with rfl | hd'
                · rw [hxe] at he
                  cases he
                  exact le_trans hvsc (le_of_not_lt hlt)
                · exact hmin d hd' r t he

/-- With no `Enabled` record, `reset_active_alarm` caches `Disabled` and
disarms the hardware. -/
theorem reset_disarm (w now : Nat) (clients : List AlarmData)
    (hall : countEnabled clients = 0) :
    reset_active_alarm w now clients = (Expiration.Disabled, HwAction.disarm) := by
  have h0 : ∀ d ∈ clients, isEnabled d.expiration = false := by
    intro d hd
    unfold countEnabled at hall
    have := List.countP_eq_zero.mp hall d hd
    simpa using this
  simp only [reset_active_alarm, selectEarliest,
    selectEarliest_all_disabled w (tickFrom w (intoU32 now)) clients
      (Expiration.Disabled, 0) h0]

/-- With at least one `Enabled` record, all of them `good` at `now`,
`reset_active_alarm` at width 32 programs `set_alarm` for an `Enabled`
record of minimal modular distance-to-fire. -/
theorem reset_select (now : Nat) (hn : now < 2 ^ 32) (clients : List AlarmData)
    (hb : ∀ d ∈ clients, boundedExp d.expiration)
    (hg : ∀ d ∈ clients, goodExp now d.expiration)
    (hpos : 0 < countEnabled clients) :
    ∃ er ed, er < 2 ^ 32 ∧ ed < 2 ^ 32 ∧
      reset_active_alarm 32 now clients =
        (Expiration.Enabled er ed, HwAction.set_alarm er ed) ∧
      (∃ d ∈ clients, d.expiration = Expiration.Enabled er ed) ∧
      ∀ d ∈ clients, ∀ r t, d.expiration = Expiration.Enabled r t →
        fireDist now er ed ≤ fireDist now r t := by
  have hnlb : tickFrom 32 (intoU32 now) = now := by
    simp only [tickFrom, intoU32]
    omega
  obtain ⟨sm1, sm2⟩ := selectEarliest_min now hn clients (Expiration.Disabled, 0)
    (fun d hd => ⟨hb d hd, hg d hd⟩) (Or.inl rfl)
  cases hsel : (clients.foldl (resetStep 32 now) (Expiration.Disabled, 0)).1 with
  | Disabled =>
    obtain ⟨_, hall⟩ := sm1 hsel
    unfold countEnabled at hpos
    obtain ⟨d, hd, hpd⟩ := List.countP_pos_iff.mp hpos
    rw [hall d hd] at hpd
    cases hpd
  | Enabled er ed =>
    obtain ⟨⟨⟨her, hed⟩, _⟩, hmem, _, hmin⟩ := sm2 er ed hsel
    refine ⟨er, ed, her, hed, ?_, ?_, hmin⟩
    · simp only [reset_active_alarm, selectEarliest, hnlb, hsel, realReference_w32,
        Nat.mod_eq_of_lt her, tickFrom_of_lt hed]
    · rcases hmem with h | h
      · exact absurd h (by simp)
      · exact h

/-- A `command` that requests a hardware update received the action that
`reset_active_alarm` computed over its final records. -/
theorem command_hw_char (w : Nat) (s : AlarmDriverState) (nowC nowR : Nat)
    (cmdType data data2 caller freq : Nat) (act : HwAction)
    (hhw : (command w s nowC nowR cmdType data data2 caller freq).hw = some act) :
    act = (reset_active_alarm w nowR
      (command w s nowC nowR cmdType data data2 caller freq).state.clients).2 := by
  rcases hc : s.clients[caller]? with _ | td
  · simp [command, hc] at hhw
  rcases cmdType with _ | _ | _ | _ | _ | _ | _ | k
  · simp [command, hc] at hhw
  · simp [command, hc] at hhw
  · simp [command, hc] at hhw
  · show act = (reset_active_alarm w nowR
      (command w s nowC nowR 3 data data2 caller freq).state.clients).2
    cases hexp : td.expiration with
    | Disabled => simp [command, hc, hexp] at hhw
    | Enabled r t =>
      simp [command, hc, hexp] at hhw ⊢
      exact hhw.symm
  · show act = (reset_active_alarm w nowR
      (command w s nowC nowR 4 data data2 caller freq).state.clients).2
    simp [command, hc, rearm] at hhw ⊢
    exact hhw.symm
  · show act = (reset_active_alarm w nowR
      (command w s nowC nowR 5 data data2 caller freq).state.clients).2
    simp [command, hc, rearm] at hhw ⊢
    exact hhw.symm
  · show act = (reset_active_alarm w nowR
      (command w s nowC nowR 6 data data2 caller freq).state.clients).2
    simp [command, hc, rearm] at hhw ⊢
    exact hhw.symm
  · simp [command, hc] at hhw

/-- The hardware action of the fired handler: disarm when nothing is
left armed, otherwise the action computed by `reset_active_alarm` over
the swept records. -/
theorem fired_hw_char (w : Nat) (s : AlarmDriverState) (nowS nowR : Nat) :
    ((alarm_fired w s nowS nowR).1.num_armed = 0 →
      (alarm_fired w s nowS nowR).2.2 = HwAction.disarm) ∧
    ((alarm_fired w s nowS nowR).1.num_armed ≠ 0 →
      (alarm_fired w s nowS nowR).2.2 =
        (reset_active_alarm w nowR (alarm_fired w s nowS nowR).1.clients).2) := by
  unfold alarm_fired
  by_cases h : s.num_armed -
      s.clients.countP (fun d => ((sweepOne (intoU32 nowS) d).2).isSome) = 0
  · simp [h]
  · simp [h]

/-- C1, amended.  After every engine operation that touches the hardware
(a successful arm via command 4, 5 or 6, a successful stop via command 3,
or the hardware-fired handler — exactly the operations producing a
hardware action), for a well-formed state at counter width 32: when
`num_armed = 0` the hardware is disarmed; when `num_armed > 0` and
additionally every `Enabled` record in the post-state is un-elapsed at
the reprogram-time `now` with age and remaining time both under `2 ^ 31`
(the half-range condition the counterexample forces), the hardware is
programmed via `set_alarm` for an `Enabled` record whose modular
distance-to-fire from `now` is minimal among all `Enabled` records. -/
theorem alarm_c1_amended :
    (∀ (s : AlarmDriverState) (nowC nowR cmdType data data2 caller freq : Nat)
        (act : HwAction),
      wf s → nowR < 2 ^ 32 →
      (∀ d ∈ (command 32 s nowC nowR cmdType data data2 caller freq).state.clients,
        goodExp nowR d.expiration) →
      (command 32 s nowC nowR cmdType data data2 caller freq).hw = some act →
      ((command 32 s nowC nowR cmdType data data2 caller freq).state.num_armed = 0 →
        act = HwAction.disarm) ∧
      (0 < (command 32 s nowC nowR cmdType data data2 caller freq).state.num_armed →
        ∃ er ed, act = HwAction.set_alarm er ed ∧
          (∃ d ∈ (command 32 s nowC nowR cmdType data data2 caller freq).state.clients,
            d.expiration = Expiration.Enabled er ed) ∧
          ∀ d ∈ (command 32 s nowC nowR cmdType data data2 caller freq).state.clients,
            ∀ r t, d.expiration = Expiration.Enabled r t →
              fireDist nowR er ed ≤ fireDist nowR r t)) ∧
    (∀ (s : AlarmDriverState) (nowS nowR : Nat),
      wf s → nowR < 2 ^ 32 →
      (∀ d ∈ (alarm_fired 32 s nowS nowR).1.clients, goodExp nowR d.expiration) →
      (((alarm_fired 32 s nowS nowR).1.num_armed = 0 →
        (alarm_fired 32 s nowS nowR).2.2 = HwAction.disarm) ∧
       (0 < (alarm_fired 32 s nowS nowR).1.num_armed →
        ∃ er ed, (alarm_fired 32 s nowS nowR).2.2 = HwAction.set_alarm er ed ∧
          (∃ d ∈ (alarm_fired 32 s nowS nowR).1.clients,
            d.expiration = Expiration.Enabled er ed) ∧
          ∀ d ∈ (alarm_fired 32 s nowS nowR).1.clients, ∀ r t,
            d.expiration = Expiration.Enabled r t →
              fireDist nowR er ed ≤ fireDist nowR r t))) := by
  constructor
  · intro s nowC nowR cmdType data data2 caller freq act hwf hnR hg hhw
    obtain ⟨hcnt, hbnd⟩ := wf_command 32 s nowC nowR cmdType data data2 caller freq hwf
    have hact := command_hw_char 32 s nowC nowR cmdType data data2 caller freq act hhw
    constructor
    · intro h0
      rw [hcnt] at h0
      rw [hact, reset_disarm 32 nowR _ h0]
    · intro hpos
      rw [hcnt] at hpos
      obtain ⟨er, ed, _, _, heq, hmem, hmin⟩ :=
        reset_select nowR hnR _ hbnd hg hpos
      refine ⟨er, ed, ?_, hmem, hmin⟩
      rw [hact, heq]
  · intro s nowS nowR hwf hnR hg
    obtain ⟨hcnt, hbnd⟩ := wf_fired 32 s nowS nowR hwf
    obtain ⟨hchar0, hchar1⟩ := fired_hw_char 32 s nowS nowR
    refine ⟨hchar0, ?_⟩
    intro hpos
    have hne : (alarm_fired 32 s nowS nowR).1.num_armed ≠ 0 := by omega
    rw [hcnt] at hpos
    obtain ⟨er, ed, _, _, heq, hmem, hmin⟩ := reset_select nowR hnR _ hbnd hg hpos
    refine ⟨er, ed, ?_, hmem, hmin⟩
    rw [hchar1 hne, heq]

/-- C1, counterexample to the claim as stated.  State: client 0 armed
with `reference = 2^32 - 100, dt = 200` (fire point 100, distance 100
from `now = 0`), client 1 disabled.  Arming client 1 via command 6 with
`reference = 0, dt = 2^32 - 50` succeeds and leaves `num_armed = 2 > 0`,
but the hardware is programmed for the new record, whose fire point
`2^32 - 50` is at modular distance `2^32 - 50` from `now` — strictly
after client 0's fire point both in modular distance from `now` and in
plain order.  The hardware is therefore not set to fire at or before the
true earliest `reference + delta`. -/
theorem alarm_c1_counterexample :
    wf ⟨1, Expiration.Disabled,
        [⟨Expiration.Enabled (2 ^ 32 - 100) 200, 0, none, 0⟩,
         ⟨Expiration.Disabled, 1, none, 0⟩], false⟩ ∧
    (command 32 ⟨1, Expiration.Disabled,
        [⟨Expiration.Enabled (2 ^ 32 - 100) 200, 0, none, 0⟩,
         ⟨Expiration.Disabled, 1, none, 0⟩], false⟩
        0 0 6 0 (2 ^ 32 - 50) 1 16000000).ret =
      CommandReturn.success_u32 (2 ^ 32 - 50) ∧
    0 < (command 32 ⟨1, Expiration.Disabled,
        [⟨Expiration.Enabled (2 ^ 32 - 100) 200, 0, none, 0⟩,
         ⟨Expiration.Disabled, 1, none, 0⟩], false⟩
        0 0 6 0 (2 ^ 32 - 50) 1 16000000).state.num_armed ∧
    (command 32 ⟨1, Expiration.Disabled,
        [⟨Expiration.Enabled (2 ^ 32 - 100) 200, 0, none, 0⟩,
         ⟨Expiration.Disabled, 1, none, 0⟩], false⟩
        0 0 6 0 (2 ^ 32 - 50) 1 16000000).hw =
      some (HwAction.set_alarm 0 (2 ^ 32 - 50)) ∧
    (∃ d ∈ (command 32 ⟨1, Expiration.Disabled,
        [⟨Expiration.Enabled (2 ^ 32 - 100) 200, 0, none, 0⟩,
         ⟨Expiration.Disabled, 1, none, 0⟩], false⟩
        0 0 6 0 (2 ^ 32 - 50) 1 16000000).state.clients,
      d.expiration = Expiration.Enabled (2 ^ 32 - 100) 200) ∧
    fireDist 0 (2 ^ 32 - 100) 200 < fireDist 0 0 (2 ^ 32 - 50) ∧
    wrapAdd 32 (2 ^ 32 - 100) 200 < wrapAdd 32 0 (2 ^ 32 - 50) := by
  refine ⟨by decide, rfl, by decide, rfl, ⟨?_, ?_⟩⟩
  · exact ⟨⟨Expiration.Enabled (2 ^ 32 - 100) 200, 0, none, 0⟩, by decide, rfl⟩
  · exact ⟨by decide, by decide⟩

/-- Witness for the amended C1 at a concrete input: two good records,
the hardware is programmed for the nearer one. -/
theorem alarm_c1_witness :
    ((command 32 ⟨1, Expiration.Disabled,
        [⟨Expiration.Enabled 900 200, 0, none, 0⟩, ⟨Expiration.Disabled, 1, none, 0⟩],
        false⟩ 1000 1000 6 1000 50 1 16000000).state.num_armed = 0 →
      HwAction.set_alarm 1000 50 = HwAction.disarm) ∧
    (0 < (command 32 ⟨1, Expiration.Disabled,
        [⟨Expiration.Enabled 900 200, 0, none, 0⟩, ⟨Expiration.Disabled, 1, none, 0⟩],
        false⟩ 1000 1000 6 1000 50 1 16000000).state.num_armed →
      ∃ er ed, HwAction.set_alarm 1000 50 = HwAction.set_alarm er ed ∧
        (∃ d ∈ (command 32 ⟨1, Expiration.Disabled,
            [⟨Expiration.Enabled 900 200, 0, none, 0⟩, ⟨Expiration.Disabled, 1, none, 0⟩],
            false⟩ 1000 1000 6 1000 50 1 16000000).state.clients,
          d.expiration = Expiration.Enabled er ed) ∧
        ∀ d ∈ (command 32 ⟨1, Expiration.Disabled,
            [⟨Expiration.Enabled 900 200, 0, none, 0⟩, ⟨Expiration.Disabled, 1, none, 0⟩],
            false⟩ 1000 1000 6 1000 50 1 16000000).state.clients,
          ∀ r t, d.expiration = Expiration.Enabled r t →
            fireDist 1000 er ed ≤ fireDist 1000 r t) :=
  alarm_c1_amended.1 ⟨1, Expiration.Disabled,
    [⟨Expiration.Enabled 900 200, 0, none, 0⟩, ⟨Expiration.Disabled, 1, none, 0⟩],
    false⟩ 1000 1000 6 1000 50 1 16000000 (HwAction.set_alarm 1000 50)
    (by decide) (by decide) (by decide) (by decide)
